import Mathlib

/-!
# Verification of the plat/devenv orchestration core

Shallow embedding of the orchestration engine of the `k3d-dev` repository
(Go sources under `pkg/config`, `pkg/orchestrator`, `pkg/tools`) together
with proofs about its core algorithms: the layered values merge, dependency
leveling, deploy/undeploy ordering, cluster lifecycle and status
aggregation.

Modelling conventions:
* Go `map[string]T` values are embedded as association lists
  `List (String × T)`; the Go runtime guarantees key uniqueness, which
  appears as `Nodup` hypotheses where a theorem needs it.  Go map
  iteration order is unspecified; the embedding iterates in list order and
  the statements proved are iteration-order independent (levels are
  sorted, lookups are keyed).
* Go `interface{}` scalars inside a values tree are embedded by the
  inductive `Value`.  A `float64` payload is represented by
  `Value.vfloat64 n` carrying the Go truncation `int(f)` of the float:
  the only operation the embedded code performs on a float payload is
  `int(portFloat)` followed by integer comparisons, so this carries
  exactly the observable information.
* Effectful provider calls (helm / k3d) are embedded by passing the
  provider's responses as function arguments and, where a claim is about
  which calls are issued, by additionally returning an explicit trace of
  the calls the code performs.
-/

namespace Plat

/-- A Go `interface{}` value inside a Helm values tree
(`map[string]interface{}` from `pkg/config/values.go`). -/
inductive Value where
  | vstr (s : String)
  | vint (n : Int)
  | vfloat64 (truncated : Int)
  | vbool (b : Bool)
  | varr (xs : List Value)
  | vmap (m : List (String × Value))
deriving Repr

/-- A Go `map[string]interface{}` embedded as an association list. -/
abbrev VMap := List (String × Value)

/-- Go map read `m[key]` (comma-ok form). -/
def lookupV : VMap → String → Option Value
  | [], _ => none
  | (k, v) :: rest, key => if k = key then some v else lookupV rest key

/-- Go map write `m[key] = value`: replace the binding if the key is
present, otherwise add it. -/
def setKey : VMap → String → Value → VMap
  | [], key, value => [(key, value)]
  | (k, v) :: rest, key, value =>
      if k = key then (key, value) :: rest else (k, v) :: setKey rest key value

/-- `mergeValues` from `pkg/config/values.go`: merge `source` into
`target`; when both the existing and the incoming value at a key are
nested mappings, merge them recursively, otherwise the incoming value
overwrites the existing one. -/
def mergeValues : VMap → VMap → VMap
  | target, [] => target
  | target, (key, Value.vmap sourceMap) :: rest =>
      (match lookupV target key with
       | some (Value.vmap targetMap) =>
           mergeValues (setKey target key (Value.vmap (mergeValues targetMap sourceMap))) rest
       | _ =>
           mergeValues (setKey target key (Value.vmap sourceMap)) rest)
  | target, (key, sourceValue) :: rest =>
      mergeValues (setKey target key sourceValue) rest
termination_by _ s => sizeOf s

/-- The update `mergeValues` performs for one `source` entry. -/
def mergeStep (target : VMap) (key : String) (sourceValue : Value) : VMap :=
  match lookupV target key, sourceValue with
  | some (Value.vmap targetMap), Value.vmap sourceMap =>
      setKey target key (Value.vmap (mergeValues targetMap sourceMap))
  | _, _ => setKey target key sourceValue

theorem mergeValues_nil (t : VMap) : mergeValues t [] = t := by
  simp [mergeValues]

theorem mergeValues_cons (t : VMap) (k : String) (sv : Value) (rest : VMap) :
    mergeValues t ((k, sv) :: rest) = mergeValues (mergeStep t k sv) rest := by
  cases sv with
  | vmap sm =>
      cases htv : lookupV t k with
      | none => simp [mergeValues, mergeStep, htv]
      | some tv =>
          cases tv <;> simp [mergeValues, mergeStep, htv]
  | vstr s => simp [mergeValues, mergeStep]
  | vint n => simp [mergeValues, mergeStep]
  | vfloat64 n => simp [mergeValues, mergeStep]
  | vbool b => simp [mergeValues, mergeStep]
  | varr xs => simp [mergeValues, mergeStep]

theorem lookupV_setKey (t : VMap) (k : String) (v : Value) (q : String) :
    lookupV (setKey t k v) q = if k = q then some v else lookupV t q := by
  induction t with
  | nil => by_cases h : k = q <;> simp [setKey, lookupV, h]
  | cons hd tl ih =>
      obtain ⟨hk, hv⟩ := hd
      by_cases h1 : hk = k
      · subst h1
        by_cases h2 : hk = q <;> simp [setKey, lookupV, h2]
      · by_cases h2 : hk = q
        · subst h2
          have hkq : k ≠ hk := fun h => h1 h.symm
          simp [setKey, lookupV, h1, hkq]
        · simp [setKey, lookupV, h1, h2, ih]

theorem lookupV_mergeValues_not_mem (t s : VMap) (q : String)
    (hq : q ∉ s.map Prod.fst) : lookupV (mergeValues t s) q = lookupV t q := by
  induction s generalizing t with
  | nil => simp [mergeValues_nil]
  | cons hd rest ih =>
      obtain ⟨k, sv⟩ := hd
      simp only [List.map_cons, List.mem_cons] at hq
      push_neg at hq
      rw [mergeValues_cons, ih _ hq.2]
      unfold mergeStep
      have hkq : k ≠ q := fun h => hq.1 h.symm
      cases htv : lookupV t k with
      | none => cases sv <;> simp [lookupV_setKey, hkq, htv]
      | some tv => cases tv <;> cases sv <;> simp [lookupV_setKey, hkq, htv]

/-- The deep-merge rule, per key: an absent source key leaves the target
binding; two nested mappings merge recursively; anything else is an
overwrite by the source value. -/
theorem lookupV_mergeValues (t s : VMap) (q : String)
    (hs : (s.map Prod.fst).Nodup) :
    lookupV (mergeValues t s) q =
      match lookupV s q with
      | none => lookupV t q
      | some sv =>
          match lookupV t q, sv with
          | some (Value.vmap tm), Value.vmap sm =>
              some (Value.vmap (mergeValues tm sm))
          | _, _ => some sv := by
  induction s generalizing t with
  | nil => simp [mergeValues_nil, lookupV]
  | cons hd rest ih =>
      obtain ⟨k, sv⟩ := hd
      simp only [List.map_cons, List.nodup_cons] at hs
      rw [mergeValues_cons]
      by_cases hkq : k = q
      · subst hkq
        have hnot : k ∉ rest.map Prod.fst := hs.1
        rw [lookupV_mergeValues_not_mem _ _ _ hnot]
        unfold mergeStep
        cases htv : lookupV t k with
        | none => cases sv <;> simp [lookupV, lookupV_setKey, htv]
        | some tv => cases tv <;> cases sv <;> simp [lookupV, lookupV_setKey, htv]
      · rw [ih _ hs.2]
        have hstep : lookupV (mergeStep t k sv) q = lookupV t q := by
          unfold mergeStep
          cases htv : lookupV t k with
          | none => cases sv <;> simp [lookupV_setKey, hkq]
          | some tv => cases tv <;> cases sv <;> simp [lookupV_setKey, hkq]
        rw [hstep]
        simp [lookupV, hkq]

/-- **C2.** Deep merge: for every pair of nested mappings, each source key
is merged by the map/map-recursive rule and otherwise overwrites
(including on type mismatch, never an error — the function is total); in
particular `{a:{x:1}}` merged with `{a:{y:2}}` gives `{a:{x:1,y:2}}`, and
`{a:1}` merged with `{a:{y:2}}` gives `{a:{y:2}}`. -/
theorem claim_c2_mergeValues_deep_merge :
    (∀ (t s : VMap) (q : String), (s.map Prod.fst).Nodup →
      lookupV (mergeValues t s) q =
        match lookupV s q with
        | none => lookupV t q
        | some sv =>
            match lookupV t q, sv with
            | some (Value.vmap tm), Value.vmap sm =>
                some (Value.vmap (mergeValues tm sm))
            | _, _ => some sv) ∧
    mergeValues [("a", Value.vmap [("x", Value.vint 1)])]
        [("a", Value.vmap [("y", Value.vint 2)])] =
      [("a", Value.vmap [("x", Value.vint 1), ("y", Value.vint 2)])] ∧
    mergeValues [("a", Value.vint 1)] [("a", Value.vmap [("y", Value.vint 2)])] =
      [("a", Value.vmap [("y", Value.vint 2)])] := by
  refine ⟨lookupV_mergeValues, ?_, ?_⟩ <;>
    simp [mergeValues_cons, mergeValues_nil, mergeStep, lookupV, setKey]

/-- Witness for C2: the per-key rule applied at a concrete type-mismatch
input, hypotheses discharged by evaluation. -/
theorem claim_c2_witness :
    lookupV (mergeValues [("a", Value.vint 1)] [("a", Value.vmap [("y", Value.vint 2)])]) "a" =
      some (Value.vmap [("y", Value.vint 2)]) := by
  have h := claim_c2_mergeValues_deep_merge.1
    [("a", Value.vint 1)] [("a", Value.vmap [("y", Value.vint 2)])] "a" (by simp)
  simpa [lookupV] using h

/-! ## Data model (`pkg/config/base.go`) -/

/-- `ServiceChart` from `pkg/config/service.go`. -/
structure ServiceChart where
  name : String
  repository : String
  version : String
deriving Repr, DecidableEq

/-- `LocalSource` from `pkg/config`: path and build metadata of a local
service source. -/
structure LocalSource where
  path : String
  dockerfile : String
deriving Repr, DecidableEq

/-- `ResolvedService` from `pkg/config/base.go`. -/
structure ResolvedService where
  name : String
  version : String
  isLocal : Bool
  localSource : Option LocalSource
  chart : ServiceChart
  values : VMap
  valuesFile : String
  ports : List Int
  environment : List (String × String)
  dependencies : List String
deriving Repr

/-- `DefaultsConfig` from `pkg/config/base.go`. -/
structure DefaultsConfig where
  registry : String
  domain : String
  namespaceName : String
  chart : String
deriving Repr, DecidableEq

/-- `BaseConfig` from `pkg/config/base.go` (the fields the orchestration
core reads). -/
structure BaseConfig where
  name : String
  defaults : DefaultsConfig
deriving Repr, DecidableEq

/-- `ExecutionMode` from `pkg/config/base.go`. -/
inductive ExecutionMode where
  | artifact
  | localMode
deriving Repr, DecidableEq

/-- `RuntimeConfig` from `pkg/config/base.go`: the resolved environment a
top-level operation receives.  The Go `map[string]*ResolvedService` is an
association list; the Go runtime guarantees its keys unique. -/
structure RuntimeConfig where
  base : BaseConfig
  mode : ExecutionMode
  resolvedServices : List (String × ResolvedService)
deriving Repr

/-- The service names of an environment (the keys of
`runtime.ResolvedServices`). -/
def serviceKeys (rt : RuntimeConfig) : List String :=
  rt.resolvedServices.map Prod.fst

/-! ## Provider data types (`pkg/tools`) -/

/-- `ReleaseStatus` from `pkg/tools`. -/
structure ReleaseStatus where
  name : String
  namespaceName : String
  status : String
  chart : String
  version : String
  updated : String
deriving Repr, DecidableEq

/-- `ReleaseInfo` from `pkg/tools`. -/
structure ReleaseInfo where
  name : String
  namespaceName : String
  status : String
  chart : String
deriving Repr, DecidableEq

/-- `ClusterStatus` from `pkg/tools`. -/
structure ClusterStatus where
  name : String
  status : String
  servers : Int
  agents : Int
  network : String
deriving Repr, DecidableEq

/-- `ClusterConfig` from `pkg/tools`. -/
structure ClusterConfig where
  name : String
  image : String
  servers : Int
  agents : Int
  ports : List String
  volumes : List String
  options : List String
  labels : List (String × String)
deriving Repr, DecidableEq

/-! ## `ValidateValues` (`pkg/config/values.go`)

The Go function prints warnings to stdout and returns an error built from
the collected `errors` slice.  The embedding returns the error result
together with the list of warning messages the function prints. -/

/-- The "required image configuration" block of `ValidateValues`: the
error strings it appends. -/
def imageErrorsOf (values : VMap) : List String :=
  match lookupV values "image" with
  | some (Value.vmap imageMap) =>
      (if (lookupV imageMap "repository").isNone then ["missing image.repository"] else []) ++
      (if (lookupV imageMap "tag").isNone then ["missing image.tag"] else [])
  | some _ => ["image configuration must be an object"]
  | none => ["missing required image configuration"]

/-- The "validate service configuration" block of `ValidateValues`: the
error strings it appends (the Go type assertion `port.(float64)` only
matches a float64 payload). -/
def portErrorsOf (values : VMap) : List String :=
  match lookupV values "service" with
  | some (Value.vmap serviceMap) =>
      match lookupV serviceMap "port" with
      | some (Value.vfloat64 portInt) =>
          if portInt < 1 ∨ portInt > 65535 then
            [s!"invalid service port {portInt} (must be 1-65535)"]
          else []
      | _ => []
  | _ => []

/-- The "validate ingress configuration" block of `ValidateValues`: the
warning lines it prints. -/
def ingressWarningsOf (service : ResolvedService) (values : VMap) : List String :=
  match lookupV values "ingress" with
  | some (Value.vmap ingressMap) =>
      match lookupV ingressMap "enabled" with
      | some (Value.vbool enabled) =>
          if !enabled && service.isLocal then
            ["Warning: Local service " ++ service.name ++ " has ingress disabled - may not be accessible"]
          else []
      | _ => []
  | _ => []

/-- The "validate resource limits" block of `ValidateValues`: the warning
lines it prints. -/
def resourceWarningsOf (service : ResolvedService) (values : VMap) : List String :=
  match lookupV values "resources" with
  | some (Value.vmap resourcesMap) =>
      match lookupV resourcesMap "limits" with
      | some (Value.vmap limitsMap) =>
          if limitsMap.length = 0 && !service.isLocal then
            ["Warning: Service " ++ service.name ++ " has no resource limits - consider setting limits for production"]
          else []
      | _ => []
  | _ => []

/-- `ValidateValues` from `pkg/config/values.go`.  First component: the
returned error (`.ok` for the Go `nil`).  Second component: the warning
lines printed. -/
def ValidateValues (service : ResolvedService) (values : VMap) :
    Except String Unit × List String :=
  let errors := imageErrorsOf values ++ portErrorsOf values
  (if errors.isEmpty then Except.ok ()
   else Except.error
     ("validation failed for service " ++ service.name ++ ": " ++ String.intercalate "; " errors),
   ingressWarningsOf service values ++ resourceWarningsOf service values)

/-- The resolved image block has both a repository and a tag. -/
def imageBlockOk (values : VMap) : Bool :=
  match lookupV values "image" with
  | some (Value.vmap imageMap) =>
      (lookupV imageMap "repository").isSome && (lookupV imageMap "tag").isSome
  | _ => false

/-- The `service.port` entry, when it is a float64 number, is in 1..65535. -/
def servicePortOk (values : VMap) : Bool :=
  match lookupV values "service" with
  | some (Value.vmap serviceMap) =>
      match lookupV serviceMap "port" with
      | some (Value.vfloat64 portInt) => decide (1 ≤ portInt) && decide (portInt ≤ 65535)
      | _ => true
  | _ => true

/-- A concrete service used in counterexamples. -/
def svcExample : ResolvedService :=
  { name := "svc", version := "1.0.0", isLocal := false, localSource := none
    chart := { name := "microservice", repository := "", version := "" }
    values := [], valuesFile := "", ports := [], environment := []
    dependencies := [] }

/-- **C8 counterexample.** An image block that has a repository but no tag
is claimed to validate successfully; the code returns a hard error. -/
theorem claim_c8_counterexample :
    (ValidateValues svcExample [("image", Value.vmap [("repository", Value.vstr "repo")])]).1
      = Except.error "validation failed for service svc: missing image.tag" := by
  rfl

/-- **C8 (amended).** `ValidateValues` returns success exactly when the
resolved image block is a mapping containing **both** a repository and a
tag and any float64 `service.port` entry is in range 1..65535; the
ingress-disabled-on-local-service and missing-resource-limits conditions
produce only warnings (the second component), never an error. -/
theorem claim_c8_validate_values :
    ∀ (service : ResolvedService) (values : VMap),
      (ValidateValues service values).1 = Except.ok () ↔
        imageBlockOk values = true ∧ servicePortOk values = true := by
  intro service values
  have himg : imageErrorsOf values = [] ↔ imageBlockOk values = true := by
    unfold imageErrorsOf imageBlockOk
    cases him : lookupV values "image" with
    | none => simp
    | some imv =>
        cases imv <;> try simp
        case vmap imageMap =>
          cases hrep : lookupV imageMap "repository" <;>
            cases htag : lookupV imageMap "tag" <;> simp
  have hport : portErrorsOf values = [] ↔ servicePortOk values = true := by
    unfold portErrorsOf servicePortOk
    cases hsv : lookupV values "service" with
    | none => simp
    | some sval =>
        cases sval <;> try simp
        case vmap serviceMap =>
          cases hp : lookupV serviceMap "port" with
          | none => simp
          | some pval => cases pval <;> simp [Int.not_lt]
  unfold ValidateValues
  by_cases he : (imageErrorsOf values ++ portErrorsOf values) = []
  · have h2 := he
    rw [List.append_eq_nil] at h2
    simp [he, ← himg, ← hport, h2.1, h2.2]
  · have h2 : ¬(imageErrorsOf values = [] ∧ portErrorsOf values = []) := by
      intro h
      exact he (by rw [h.1, h.2]; rfl)
    have hne : (imageErrorsOf values ++ portErrorsOf values).isEmpty = false := by
      simp [List.isEmpty_iff, he]
    rw [himg, hport] at h2
    simp [hne, h2]

/-! ## Dependency leveling (`groupServicesByDependencyLevel`,
`pkg/orchestrator/services.go`) -/

/-- `sort.Strings` (insertion sort; the Go sort is in-place but its result
is determined by the multiset of names). -/
def insertSorted (a : String) : List String → List String
  | [] => [a]
  | b :: rest => if a ≤ b then a :: b :: rest else b :: insertSorted a rest

/-- Alphabetical sort used for deterministic level ordering. -/
def sortStrings : List String → List String
  | [] => []
  | a :: rest => insertSorted a (sortStrings rest)

/-- The dependency graph `graph[serviceName] = service.Dependencies` built
by the leveling functions, as an association list with unique keys. -/
abbrev DepGraph := List (String × List String)

/-- The known service names (the keys of the Go `graph` / `inDegree`
maps). -/
def graphKeys (g : DepGraph) : List String := g.map Prod.fst

/-- Go `graph[s]` (a missing key reads as the zero value `nil`). -/
def depsOf : DepGraph → String → List String
  | [], _ => []
  | (k, ds) :: rest, s => if k = s then ds else depsOf rest s

/-- One `inDegree[dep]++` step, guarded by `if _, exists := inDegree[dep]`:
only names that are keys of the map (known services) are incremented. -/
def bumpDeg (keys : List String) (deg : String → Int) (dep : String) : String → Int :=
  if dep ∈ keys then fun x => if x = dep then deg dep + 1 else deg x else deg

/-- `inDegree[dep]++` over one dependency list. -/
def bumpDegMany (keys : List String) (deg : String → Int) : List String → (String → Int)
  | [] => deg
  | dep :: rest => bumpDegMany keys (bumpDeg keys deg dep) rest

/-- The in-degree initialization loop of `groupServicesByDependencyLevel`:
for every service's dependency list, increment the counter of each listed
dependency that is itself a known service.  Note the Go counter hence
counts, for each service, how many times it is *listed as a dependency by
others* — its number of dependents. -/
def initDegLoop (keys : List String) (deg : String → Int) : DepGraph → (String → Int)
  | [] => deg
  | (_, ds) :: rest => initDegLoop keys (bumpDegMany keys deg ds) rest

/-- Initial `inDegree` map (every known service starts at 0; unknown names
read as the Go zero value 0 and are never incremented). -/
def initDeg (g : DepGraph) : String → Int :=
  initDegLoop (graphKeys g) (fun _ => 0) g

/-- `if inDegree[dependency] > 0 { inDegree[dependency]-- }`. -/
def decDeg (deg : String → Int) (dep : String) : String → Int :=
  if deg dep > 0 then fun x => if x = dep then deg dep - 1 else deg x else deg

/-- The decrement loop over one processed service's dependency list. -/
def decDegMany (deg : String → Int) : List String → (String → Int)
  | [] => deg
  | dep :: rest => decDegMany (decDeg deg dep) rest

/-- `inDegree[service] = -1  // Mark as processed`. -/
def markProcessed (deg : String → Int) (s : String) : String → Int :=
  fun x => if x = s then -1 else deg x

/-- Processing the current level: mark each member processed, then
decrement the counter of each of its dependencies. -/
def processLevel (g : DepGraph) (deg : String → Int) : List String → (String → Int)
  | [] => deg
  | s :: rest => processLevel g (decDegMany (markProcessed deg s) (depsOf g s)) rest

/-- The `for processedCount < len(runtime.ResolvedServices)` loop of
`groupServicesByDependencyLevel`.  `fuel` bounds the number of loop
iterations; with `fuel = |services| + 1` it can never run out because
every iteration either returns or processes at least one service
(`levelLoop_fuel_irrelevant` below is implicit in the proofs: the stuck
case is reached before fuel is). -/
def levelLoop (g : DepGraph) : Nat → (String → Int) → Nat → Except String (List (List String))
  | 0, _, _ => Except.error "level loop out of fuel"
  | fuel + 1, deg, processedCount =>
      if processedCount < g.length then
        let currentLevel := sortStrings ((graphKeys g).filter (fun s => deg s == 0))
        if currentLevel.isEmpty then
          Except.error "circular dependency detected in services"
        else
          match levelLoop g fuel (processLevel g deg currentLevel)
              (processedCount + currentLevel.length) with
          | Except.ok levels => Except.ok (currentLevel :: levels)
          | Except.error e => Except.error e
      else Except.ok []

/-- `groupServicesByDependencyLevel` over a dependency graph. -/
def groupLevels (g : DepGraph) : Except String (List (List String)) :=
  levelLoop g (g.length + 1) (initDeg g) 0

/-- The dependency graph of an environment
(`graph[serviceName] = service.Dependencies`). -/
def serviceGraph (rt : RuntimeConfig) : DepGraph :=
  rt.resolvedServices.map (fun p => (p.1, p.2.dependencies))

/-- `groupServicesByDependencyLevel` from `pkg/orchestrator/services.go`. -/
def groupServicesByDependencyLevel (rt : RuntimeConfig) :
    Except String (List (List String)) :=
  groupLevels (serviceGraph rt)

/-- A service value that only carries a name and dependencies (the other
fields are irrelevant to leveling). -/
def mkService (name : String) (deps : List String) : ResolvedService :=
  { svcExample with name := name, dependencies := deps }

/-- Example defaults used by concrete environments. -/
def defaultsExample : DefaultsConfig :=
  { registry := "registry.example.com", domain := "dev.local"
    namespaceName := "default", chart := "microservice" }

/-- The three-service environment `{db: [], api: [db], web: [api]}` of
claim C1. -/
def rtC1 : RuntimeConfig :=
  { base := { name := "demo", defaults := defaultsExample }
    mode := ExecutionMode.artifact
    resolvedServices :=
      [("db", mkService "db" []),
       ("api", mkService "api" ["db"]),
       ("web", mkService "web" ["api"])] }

/-- **C1 (divergence).** On `{db: [], api: [db], web: [api]}` the code
computes the levels `[[web],[api],[db]]` — each service is grouped by how
many *dependents* remain, not dependencies, so every dependency lands in
a strictly *later* level — and not the claimed `[[db],[api],[web]]`;
`DeployServices` therefore deploys `web` before its dependency `api`. -/
theorem claim_c1_leveling_reversed :
    groupServicesByDependencyLevel rtC1 = Except.ok [["web"], ["api"], ["db"]] ∧
    groupServicesByDependencyLevel rtC1 ≠ Except.ok [["db"], ["api"], ["web"]] := by
  constructor
  · rfl
  · intro h
    rw [show groupServicesByDependencyLevel rtC1 = Except.ok [["web"], ["api"], ["db"]]
      from rfl] at h
    simp at h

/-! ### Facts about the leveling loop, used to prove cycle detection -/

theorem insertSorted_perm (a : String) (l : List String) :
    (insertSorted a l).Perm (a :: l) := by
  induction l with
  | nil => simp [insertSorted]
  | cons b rest ih =>
      unfold insertSorted
      by_cases h : a ≤ b
      · simp [h]
      · simp only [h, if_false]
        exact (ih.cons b).trans (List.Perm.swap a b rest)

theorem sortStrings_perm (l : List String) : (sortStrings l).Perm l := by
  induction l with
  | nil => simp [sortStrings]
  | cons a rest ih =>
      exact (insertSorted_perm a (sortStrings rest)).trans (ih.cons a)

theorem mem_sortStrings {x : String} {l : List String} :
    x ∈ sortStrings l ↔ x ∈ l :=
  (sortStrings_perm l).mem_iff

theorem nodup_sortStrings {l : List String} (h : l.Nodup) :
    (sortStrings l).Nodup :=
  ((sortStrings_perm l).nodup_iff).mpr h

/-- The number of times `x` is listed as a dependency by the services of
`U` (with multiplicity) — exactly what the Go `inDegree` counter holds
for an unprocessed service. -/
def mentionCount (U : DepGraph) (x : String) : Nat :=
  (U.map (fun p => p.2.count x)).sum

theorem mentionCount_nil (x : String) : mentionCount [] x = 0 := rfl

theorem mentionCount_cons (k : String) (ds : List String) (rest : DepGraph) (x : String) :
    mentionCount ((k, ds) :: rest) x = ds.count x + mentionCount rest x := by
  simp [mentionCount]

theorem mentionCount_le_of_sublist {U1 U2 : DepGraph} (h : U1.Sublist U2) (x : String) :
    mentionCount U1 x ≤ mentionCount U2 x := by
  induction h with
  | slnil => exact Nat.le_refl _
  | cons p _ ih =>
      obtain ⟨k, ds⟩ := p
      rw [mentionCount_cons]
      omega
  | cons₂ p _ ih =>
      obtain ⟨k, ds⟩ := p
      rw [mentionCount_cons, mentionCount_cons]
      omega

theorem count_le_mentionCount {U : DepGraph} {d : String} {ds : List String}
    (h : (d, ds) ∈ U) (x : String) : ds.count x ≤ mentionCount U x := by
  induction U with
  | nil => simp at h
  | cons hd rest ih =>
      obtain ⟨k, kds⟩ := hd
      rw [mentionCount_cons]
      rcases List.mem_cons.mp h with heq | hmem
      · obtain ⟨h1, h2⟩ := Prod.mk.injEq .. ▸ heq
        subst h2
        omega
      · have := ih hmem
        omega

/-- `graphKeys` of a cons. -/
theorem graphKeys_cons (k : String) (ds : List String) (rest : DepGraph) :
    graphKeys ((k, ds) :: rest) = k :: graphKeys rest := rfl

theorem exists_entry_of_mem_keys {U : DepGraph} {s : String}
    (h : s ∈ graphKeys U) : ∃ ds, (s, ds) ∈ U := by
  induction U with
  | nil => simp [graphKeys] at h
  | cons hd rest ih =>
      obtain ⟨k, kds⟩ := hd
      rw [graphKeys_cons] at h
      rcases List.mem_cons.mp h with heq | hmem
      · exact ⟨kds, by simp [heq]⟩
      · obtain ⟨ds, hds⟩ := ih hmem
        exact ⟨ds, List.mem_cons_of_mem _ hds⟩

theorem mem_keys_of_mem {U : DepGraph} {s : String} {ds : List String}
    (h : (s, ds) ∈ U) : s ∈ graphKeys U := by
  exact List.mem_map.mpr ⟨(s, ds), h, rfl⟩

theorem depsOf_eq_of_mem {g : DepGraph} (hg : (graphKeys g).Nodup)
    {s : String} {ds : List String} (h : (s, ds) ∈ g) : depsOf g s = ds := by
  induction g with
  | nil => simp at h
  | cons hd rest ih =>
      obtain ⟨k, kds⟩ := hd
      rw [graphKeys_cons, List.nodup_cons] at hg
      rcases List.mem_cons.mp h with heq | hmem
      · obtain ⟨h1, h2⟩ := Prod.mk.injEq .. ▸ heq
        subst h1; subst h2
        simp [depsOf]
      · have hks : k ≠ s := by
          intro hk
          subst hk
          exact hg.1 (mem_keys_of_mem hmem)
        simp only [depsOf, hks, if_false]
        exact ih hg.2 hmem

/-- Removing a processed service's entry from the unprocessed pool. -/
def removeKey (U : DepGraph) (s : String) : DepGraph :=
  U.filter (fun p => p.1 != s)

theorem removeKey_sublist (U : DepGraph) (s : String) :
    (removeKey U s).Sublist U :=
  List.filter_sublist _

theorem mem_keys_removeKey {U : DepGraph} {s x : String} :
    x ∈ graphKeys (removeKey U s) ↔ x ∈ graphKeys U ∧ x ≠ s := by
  unfold graphKeys removeKey
  simp only [List.mem_map, List.mem_filter]
  constructor
  · rintro ⟨p, ⟨hp, hne⟩, rfl⟩
    refine ⟨⟨p, hp, rfl⟩, ?_⟩
    simpa using hne
  · rintro ⟨⟨p, hp, rfl⟩, hne⟩
    exact ⟨p, ⟨hp, by simpa using hne⟩, rfl⟩

theorem removeKey_cons_self (k : String) (kds : List String) (rest : DepGraph) :
    removeKey ((k, kds) :: rest) k = removeKey rest k := by
  simp [removeKey, List.filter_cons]

theorem removeKey_cons_ne {k s : String} (h : k ≠ s) (kds : List String)
    (rest : DepGraph) :
    removeKey ((k, kds) :: rest) s = (k, kds) :: removeKey rest s := by
  simp [removeKey, List.filter_cons, h]

theorem removeKey_eq_of_not_mem {U : DepGraph} {s : String}
    (h : s ∉ graphKeys U) : removeKey U s = U := by
  induction U with
  | nil => rfl
  | cons hd rest ih =>
      obtain ⟨k, kds⟩ := hd
      rw [graphKeys_cons, List.mem_cons, not_or] at h
      have hk : k ≠ s := fun hh => h.1 hh.symm
      rw [removeKey_cons_ne hk, ih h.2]

theorem removeKey_length {U : DepGraph} {s : String}
    (hnd : (graphKeys U).Nodup) (h : s ∈ graphKeys U) :
    (removeKey U s).length + 1 = U.length := by
  induction U with
  | nil => simp [graphKeys] at h
  | cons hd rest ih =>
      obtain ⟨k, kds⟩ := hd
      rw [graphKeys_cons, List.nodup_cons] at hnd
      rw [graphKeys_cons] at h
      by_cases hk : k = s
      · subst hk
        rw [removeKey_cons_self, removeKey_eq_of_not_mem hnd.1]
        simp
      · have hmem : s ∈ graphKeys rest := by
          rcases List.mem_cons.mp h with heq | hm
          · exact absurd heq.symm hk
          · exact hm
        rw [removeKey_cons_ne hk]
        have := ih hnd.2 hmem
        simp only [List.length_cons]
        omega

theorem mentionCount_removeKey {U : DepGraph} (hnd : (graphKeys U).Nodup)
    {s : String} {ds : List String} (hmem : (s, ds) ∈ U) (x : String) :
    mentionCount U x = mentionCount (removeKey U s) x + ds.count x := by
  induction U with
  | nil => simp at hmem
  | cons hd rest ih =>
      obtain ⟨k, kds⟩ := hd
      rw [graphKeys_cons, List.nodup_cons] at hnd
      rcases List.mem_cons.mp hmem with heq | hm
      · obtain ⟨h1, h2⟩ := Prod.mk.injEq .. ▸ heq
        subst h1; subst h2
        rw [removeKey_cons_self, removeKey_eq_of_not_mem hnd.1, mentionCount_cons]
        omega
      · have hks : k ≠ s := by
          intro hk
          subst hk
          exact hnd.1 (mem_keys_of_mem hm)
        rw [removeKey_cons_ne hks, mentionCount_cons, mentionCount_cons]
        have := ih hnd.2 hm
        omega

theorem decDeg_apply_ne {deg : String → Int} {d x : String} (h : x ≠ d) :
    decDeg deg d x = deg x := by
  unfold decDeg
  by_cases hd : deg d > 0 <;> simp [hd, h]

theorem decDeg_apply_self (deg : String → Int) (d : String) :
    decDeg deg d d = if deg d > 0 then deg d - 1 else deg d := by
  unfold decDeg
  by_cases hd : deg d > 0 <;> simp [hd]

theorem decDegMany_nonpos (ds : List String) (x : String) :
    ∀ deg : String → Int, deg x ≤ 0 → decDegMany deg ds x = deg x := by
  induction ds with
  | nil => intro deg _; rfl
  | cons d rest ih =>
      intro deg hx
      show decDegMany (decDeg deg d) rest x = deg x
      have hval : decDeg deg d x = deg x := by
        by_cases hxd : x = d
        · subst hxd
          rw [decDeg_apply_self]
          by_cases hd : deg x > 0
          · exact absurd hd (by omega)
          · simp [hd]
        · exact decDeg_apply_ne hxd
      rw [ih _ (by rw [hval]; exact hx), hval]

theorem decDegMany_exact (ds : List String) (x : String) :
    ∀ deg : String → Int, 0 ≤ deg x → (ds.count x : Int) ≤ deg x →
      decDegMany deg ds x = deg x - ds.count x := by
  induction ds with
  | nil => intro deg _ _; simp [decDegMany]
  | cons d rest ih =>
      intro deg h0 hle
      show decDegMany (decDeg deg d) rest x = deg x - List.count x (d :: rest)
      by_cases hxd : x = d
      · subst hxd
        have hcnt : List.count x (x :: rest) = rest.count x + 1 :=
          List.count_cons_self x rest
        rw [hcnt] at hle ⊢
        push_cast at hle
        have hpos : deg x > 0 := by omega
        have hval : decDeg deg x x = deg x - 1 := by
          rw [decDeg_apply_self]
          simp [hpos]
        rw [ih _ (by rw [hval]; omega) (by rw [hval]; omega), hval]
        push_cast
        omega
      · have hcnt : List.count x (d :: rest) = rest.count x := by
          rw [List.count_cons]
          simp [Ne.symm hxd]
        rw [hcnt] at hle ⊢
        have hval : decDeg deg d x = deg x := decDeg_apply_ne hxd
        rw [ih _ (by rw [hval]; exact h0) (by rw [hval]; exact hle), hval]

theorem bumpDeg_apply_ne {keys : List String} {deg : String → Int} {d x : String}
    (h : x ≠ d) : bumpDeg keys deg d x = deg x := by
  unfold bumpDeg
  by_cases hd : d ∈ keys <;> simp [hd, h]

theorem bumpDeg_apply_self (keys : List String) (deg : String → Int) (d : String) :
    bumpDeg keys deg d d = if d ∈ keys then deg d + 1 else deg d := by
  unfold bumpDeg
  by_cases hd : d ∈ keys <;> simp [hd]

theorem bumpDegMany_apply (keys : List String) (ds : List String) (x : String) :
    ∀ deg : String → Int,
      bumpDegMany keys deg ds x =
        deg x + (if x ∈ keys then (ds.count x : Int) else 0) := by
  induction ds with
  | nil => intro deg; by_cases hx : x ∈ keys <;> simp [bumpDegMany, hx]
  | cons d rest ih =>
      intro deg
      show bumpDegMany keys (bumpDeg keys deg d) rest x = _
      rw [ih]
      by_cases hxd : x = d
      · subst hxd
        rw [bumpDeg_apply_self]
        by_cases hx : x ∈ keys
        · simp only [hx, if_true, List.count_cons_self]
          push_cast
          omega
        · simp [hx]
      · have hcnt : List.count x (d :: rest) = rest.count x := by
          rw [List.count_cons]
          simp [Ne.symm hxd]
        rw [bumpDeg_apply_ne hxd, hcnt]

theorem initDegLoop_apply (keys : List String) (rest : DepGraph) (x : String) :
    ∀ deg : String → Int,
      initDegLoop keys deg rest x =
        deg x + (if x ∈ keys then (mentionCount rest x : Int) else 0) := by
  induction rest with
  | nil =>
      intro deg
      by_cases hx : x ∈ keys <;> simp [initDegLoop, mentionCount_nil, hx]
  | cons hd tail ih =>
      obtain ⟨k, ds⟩ := hd
      intro deg
      show initDegLoop keys (bumpDegMany keys deg ds) tail x = _
      rw [ih, bumpDegMany_apply, mentionCount_cons]
      by_cases hxk : x ∈ keys
      · simp only [hxk, if_true]
        push_cast
        omega
      · simp [hxk]

theorem initDeg_apply (g : DepGraph) (x : String) :
    initDeg g x = if x ∈ graphKeys g then (mentionCount g x : Int) else 0 := by
  unfold initDeg
  rw [initDegLoop_apply]
  by_cases hx : x ∈ graphKeys g <;> simp [hx]

/-- The loop invariant of `groupServicesByDependencyLevel` relating the
`inDegree` map to the pool `U` of not-yet-processed services: an
unprocessed service's counter holds the number of times it is listed as a
dependency by unprocessed services, a processed service is marked `-1`,
and names outside the service set never have a positive counter. -/
def DegInv (g U : DepGraph) (deg : String → Int) : Prop :=
  (∀ s ∈ graphKeys g,
      (s ∈ graphKeys U ∧ deg s = (mentionCount U s : Int)) ∨
      (s ∉ graphKeys U ∧ deg s = -1)) ∧
  (∀ s, s ∉ graphKeys g → deg s ≤ 0)

theorem step_inv {g : DepGraph} (hg : (graphKeys g).Nodup) {U : DepGraph}
    (hU : U.Sublist g) {s : String} (hsU : s ∈ graphKeys U)
    {deg : String → Int} (hinv : DegInv g U deg) :
    DegInv g (removeKey U s) (decDegMany (markProcessed deg s) (depsOf g s)) ∧
      (removeKey U s).length + 1 = U.length := by
  have hndU : (graphKeys U).Nodup := hg.sublist (hU.map Prod.fst)
  obtain ⟨ds, hmem⟩ := exists_entry_of_mem_keys hsU
  have hmemg : (s, ds) ∈ g := hU.subset hmem
  have hds : depsOf g s = ds := depsOf_eq_of_mem hg hmemg
  refine ⟨⟨?_, ?_⟩, removeKey_length hndU hsU⟩
  · intro x hx
    by_cases hxs : x = s
    · subst hxs
      right
      constructor
      · intro hmem2
        exact (mem_keys_removeKey.mp hmem2).2 rfl
      · have hm : markProcessed deg x x = -1 := by simp [markProcessed]
        rw [decDegMany_nonpos _ _ _ (by rw [hm]; omega), hm]
    · have hmark : markProcessed deg s x = deg x := by simp [markProcessed, hxs]
      rcases hinv.1 x hx with ⟨hxU, hdeg⟩ | ⟨hxU, hdeg⟩
      · left
        refine ⟨mem_keys_removeKey.mpr ⟨hxU, hxs⟩, ?_⟩
        have hsum := mentionCount_removeKey hndU hmem x
        have hcle : ds.count x ≤ mentionCount U x := count_le_mentionCount hmem x
        have h0 : (0:Int) ≤ deg x := by rw [hdeg]; exact_mod_cast Nat.zero_le _
        have hcnt : (ds.count x : Int) ≤ deg x := by
          rw [hdeg]; exact_mod_cast hcle
        rw [hds, decDegMany_exact _ _ _ (by rw [hmark]; exact h0)
          (by rw [hmark]; exact hcnt), hmark, hdeg]
        omega
      · right
        refine ⟨fun hmem2 => hxU (mem_keys_removeKey.mp hmem2).1, ?_⟩
        rw [decDegMany_nonpos _ _ _ (by rw [hmark, hdeg]; omega), hmark, hdeg]
  · intro x hx
    have hxs : x ≠ s := by
      intro h
      subst h
      exact hx ((hU.map Prod.fst).subset hsU)
    have hmark : markProcessed deg s x = deg x := by simp [markProcessed, hxs]
    rw [decDegMany_nonpos _ _ _ (by rw [hmark]; exact hinv.2 x hx), hmark]
    exact hinv.2 x hx

theorem processLevel_inv {g : DepGraph} (hg : (graphKeys g).Nodup) :
    ∀ (lvl : List String) (U : DepGraph) (deg : String → Int),
      U.Sublist g → lvl.Nodup → (∀ t ∈ lvl, t ∈ graphKeys U) →
      DegInv g U deg →
      ∃ U2 : DepGraph, U2.Sublist U ∧
        DegInv g U2 (processLevel g deg lvl) ∧
        U2.length + lvl.length = U.length ∧
        (∀ x, x ∈ graphKeys U2 ↔ x ∈ graphKeys U ∧ x ∉ lvl) := by
  intro lvl
  induction lvl with
  | nil =>
      intro U deg hU _ _ hinv
      exact ⟨U, List.Sublist.refl U, hinv, by simp, by simp⟩
  | cons s rest ih =>
      intro U deg hU hnd hmem hinv
      have hsU : s ∈ graphKeys U := hmem s (by simp)
      obtain ⟨hinv1, hlen1⟩ := step_inv hg hU hsU hinv
      have hU1 : (removeKey U s).Sublist U := removeKey_sublist U s
      have hU1g : (removeKey U s).Sublist g := hU1.trans hU
      rw [List.nodup_cons] at hnd
      have hmem1 : ∀ t ∈ rest, t ∈ graphKeys (removeKey U s) := by
        intro t ht
        refine mem_keys_removeKey.mpr ⟨hmem t (by simp [ht]), ?_⟩
        intro hts
        subst hts
        exact hnd.1 ht
      obtain ⟨U2, hs2, hinv2, hlen2, hkeys2⟩ :=
        ih (removeKey U s) _ hU1g hnd.2 hmem1 hinv1
      refine ⟨U2, hs2.trans hU1, hinv2, ?_, ?_⟩
      · simp only [List.length_cons]
        omega
      · intro x
        rw [hkeys2 x, mem_keys_removeKey]
        simp only [List.mem_cons, not_or]
        tauto

theorem levelLoop_cycle {g : DepGraph} (hg : (graphKeys g).Nodup)
    {C : List String} (hCne : C ≠ []) (hCkeys0 : ∀ c ∈ C, c ∈ graphKeys g)
    (hcyc : ∀ c ∈ C, ∃ d ∈ C, c ∈ depsOf g d) :
    ∀ (fuel : Nat) (U : DepGraph) (deg : String → Int) (processedCount : Nat),
      U.Sublist g → (∀ c ∈ C, c ∈ graphKeys U) → DegInv g U deg →
      processedCount + U.length = g.length → U.length + 1 ≤ fuel →
      levelLoop g fuel deg processedCount =
        Except.error "circular dependency detected in services" := by
  intro fuel
  induction fuel with
  | zero =>
      intro U deg pc _ _ _ _ hf
      omega
  | succ fuel ih =>
      intro U deg pc hU hCU hinv hcount hf
      obtain ⟨c0, hc0⟩ := List.exists_mem_of_ne_nil C hCne
      have hUne : 1 ≤ U.length := by
        have hm := hCU c0 hc0
        cases U with
        | nil => simp [graphKeys] at hm
        | cons a b => simp
      have hpc : pc < g.length := by omega
      have hCpos : ∀ c ∈ C, deg c ≠ 0 := by
        intro c hc
        obtain ⟨d, hd, hcd⟩ := hcyc c hc
        obtain ⟨dds, hdds⟩ := exists_entry_of_mem_keys (hCU d hd)
        have hddsg : (d, dds) ∈ g := hU.subset hdds
        have hdeq : depsOf g d = dds := depsOf_eq_of_mem hg hddsg
        have hcount1 : 0 < dds.count c := List.count_pos_iff.mpr (hdeq ▸ hcd)
        have hle := count_le_mentionCount hdds c
        rcases hinv.1 c (hCkeys0 c hc) with ⟨_, hdeg⟩ | ⟨hnotin, _⟩
        · rw [hdeg]
          exact_mod_cast (by omega : (mentionCount U c : Int) ≠ 0)
        · exact absurd (hCU c hc) hnotin
      have hlvl_mem : ∀ t,
          t ∈ sortStrings ((graphKeys g).filter (fun s => deg s == 0)) ↔
            (t ∈ graphKeys g ∧ deg t = 0) := by
        intro t
        rw [mem_sortStrings, List.mem_filter]
        simp
      simp only [levelLoop]
      rw [if_pos hpc]
      set lvl := sortStrings ((graphKeys g).filter (fun s => deg s == 0)) with hlvldef
      by_cases hemp : lvl.isEmpty = true
      · rw [if_pos hemp]
      · rw [if_neg hemp]
        have hlvl_nd : lvl.Nodup := nodup_sortStrings (hg.filter _)
        have hlvl_keysU : ∀ t ∈ lvl, t ∈ graphKeys U := by
          intro t ht
          obtain ⟨htg, htz⟩ := (hlvl_mem t).mp ht
          rcases hinv.1 t htg with ⟨h1, _⟩ | ⟨_, hdeg⟩
          · exact h1
          · rw [hdeg] at htz
            simp at htz
        obtain ⟨U2, hs2, hinv2, hlen2, hkeys2⟩ :=
          processLevel_inv hg lvl U deg hU hlvl_nd hlvl_keysU hinv
        have hlvl_ne : 1 ≤ lvl.length := by
          have hne : lvl ≠ [] := by
            simpa [List.isEmpty_iff] using hemp
          have := List.length_pos.mpr hne
          omega
        have hrec := ih U2 (processLevel g deg lvl) (pc + lvl.length)
          (hs2.trans hU)
          (fun c hc => (hkeys2 c).mpr
            ⟨hCU c hc, fun hcl => hCpos c hc ((hlvl_mem c).mp hcl).2⟩)
          hinv2 (by omega) (by omega)
        rw [hrec]

/-- A nonempty set of services each of which is listed as a dependency by
another member of the set — the standard finite witness that the
dependency graph contains a cycle (the vertex set of any directed cycle
has this property, and conversely chasing "a member that lists me"
through a finite such set closes a cycle). -/
def HasDependencyCycle (g : DepGraph) : Prop :=
  ∃ C : List String, C ≠ [] ∧ (∀ c ∈ C, c ∈ graphKeys g) ∧
    ∀ c ∈ C, ∃ d ∈ C, c ∈ depsOf g d

theorem groupLevels_cycle_error {g : DepGraph} (hg : (graphKeys g).Nodup)
    (hcyc : HasDependencyCycle g) :
    groupLevels g = Except.error "circular dependency detected in services" := by
  obtain ⟨C, hne, hkeys, hcy⟩ := hcyc
  refine levelLoop_cycle hg hne hkeys hcy (g.length + 1) g (initDeg g) 0
    (List.Sublist.refl g) hkeys ⟨?_, ?_⟩ (by simp) (by omega)
  · intro s hs
    exact Or.inl ⟨hs, by rw [initDeg_apply]; simp [hs]⟩
  · intro s hs
    rw [initDeg_apply]
    simp [hs]

/-- **C3.** For every environment whose dependency graph contains a cycle,
`groupServicesByDependencyLevel` fails with the dependency-cycle error and
returns no level list at all (the Go function returns `nil, err`; the
embedded `Except.error` carries no levels). -/
theorem claim_c3_cycle_error :
    ∀ rt : RuntimeConfig, (serviceKeys rt).Nodup →
      HasDependencyCycle (serviceGraph rt) →
      groupServicesByDependencyLevel rt =
        Except.error "circular dependency detected in services" := by
  intro rt hnd hcyc
  have hkeys : (graphKeys (serviceGraph rt)).Nodup := by
    simpa [graphKeys, serviceGraph, serviceKeys, List.map_map, Function.comp] using hnd
  exact groupLevels_cycle_error hkeys hcyc

/-- The two-service cyclic environment `{a: [b], b: [a]}`. -/
def rtCycle : RuntimeConfig :=
  { base := { name := "cyc", defaults := defaultsExample }
    mode := ExecutionMode.artifact
    resolvedServices := [("a", mkService "a" ["b"]), ("b", mkService "b" ["a"])] }

/-- Witness for C3: the theorem applied to the concrete cyclic environment
`a ↔ b`, hypotheses discharged by evaluation. -/
theorem claim_c3_witness :
    groupServicesByDependencyLevel rtCycle =
      Except.error "circular dependency detected in services" := by
  apply claim_c3_cycle_error rtCycle (by decide)
  exact ⟨["a", "b"], by decide, by decide, by decide⟩

/-! ## Deploy (`DeployServices` / `deployServicesInLevel`,
`pkg/orchestrator/services.go`)

Within a level the Go code spawns one goroutine per service, each calling
`deployService`; every goroutine of the level runs to completion before
the results are collected.  The per-service outcome is passed as the
function argument `outcome` (`none` = success, `some msg` = that
service's deployment error).  The Go failure-collection order is
scheduler dependent; the embedding collects in level order, and the
properties proved about the failure list are order independent. -/

/-- The aggregated error of `DeployServices`: dependency resolution
failed, or a level's fan-out produced the given `(service, error)`
failures (the Go code renders this structure into one error string). -/
inductive DeployError where
  | depResolution (msg : String)
  | levelFailure (levelIdx : Nat) (failures : List (String × String))
deriving Repr, DecidableEq

/-- `deployServicesInLevel`: the `(serviceName, err)` pairs collected from
the level's fan-out; the level succeeds exactly when this is empty. -/
def deployServicesInLevel (serviceNames : List String)
    (outcome : String → Option String) : List (String × String) :=
  serviceNames.filterMap (fun name => (outcome name).map (fun e => (name, e)))

/-- The per-level loop of `DeployServices`.  First component: the result;
second: the trace of every service whose deployment was attempted (every
member of a started level is attempted; after a failing level no further
level is started). -/
def deployLevels (outcome : String → Option String) :
    List (List String) → Nat → Except DeployError Unit × List String
  | [], _ => (Except.ok (), [])
  | level :: rest, levelIdx =>
      let failures := deployServicesInLevel level outcome
      if failures.isEmpty then
        let next := deployLevels outcome rest (levelIdx + 1)
        (next.1, level ++ next.2)
      else (Except.error (DeployError.levelFailure levelIdx failures), level)

/-- `DeployServices` from `pkg/orchestrator/services.go`. -/
def DeployServices (rt : RuntimeConfig) (outcome : String → Option String) :
    Except DeployError Unit × List String :=
  match groupServicesByDependencyLevel rt with
  | Except.error e => (Except.error (DeployError.depResolution e), [])
  | Except.ok serviceLevels => deployLevels outcome serviceLevels 0

theorem mem_deployServicesInLevel (level : List String)
    (outcome : String → Option String) (t : String) (e : String) :
    (t, e) ∈ deployServicesInLevel level outcome ↔
      t ∈ level ∧ outcome t = some e := by
  simp only [deployServicesInLevel, List.mem_filterMap, Option.map_eq_some']
  constructor
  · rintro ⟨a, ha, e2, he2, heq⟩
    obtain ⟨h1, h2⟩ := Prod.mk.injEq .. ▸ heq
    subst h1; subst h2
    exact ⟨ha, he2⟩
  · rintro ⟨ht, he⟩
    exact ⟨t, ht, e, he, rfl⟩

theorem deployServicesInLevel_eq_nil (level : List String)
    (outcome : String → Option String) :
    deployServicesInLevel level outcome = [] ↔ ∀ t ∈ level, outcome t = none := by
  simp [deployServicesInLevel, List.filterMap_eq_nil_iff, Option.map_eq_none]

theorem deployLevels_failure (outcome : String → Option String) :
    ∀ (levels : List (List String)) (i : Nat) (lvl : List String) (idx : Nat),
      levels[i]? = some lvl →
      (∀ j lvlj, j < i → levels[j]? = some lvlj → ∀ t ∈ lvlj, outcome t = none) →
      (∃ s ∈ lvl, outcome s ≠ none) →
      deployLevels outcome levels idx =
        (Except.error
          (DeployError.levelFailure (idx + i) (deployServicesInLevel lvl outcome)),
          (levels.take (i + 1)).flatten) := by
  intro levels
  induction levels with
  | nil =>
      intro i lvl idx hget
      simp at hget
  | cons level rest ih =>
      intro i lvl idx hget hbefore hfail
      cases i with
      | zero =>
          rw [List.getElem?_cons_zero] at hget
          injection hget with hget
          subst hget
          obtain ⟨s, hs, hsf⟩ := hfail
          have hne : deployServicesInLevel level outcome ≠ [] := by
            rw [Ne, deployServicesInLevel_eq_nil]
            intro hall
            exact hsf (hall s hs)
          have hemp : (deployServicesInLevel level outcome).isEmpty = false := by
            simpa [List.isEmpty_iff] using hne
          simp only [deployLevels]
          rw [if_neg (by simp [hemp])]
          simp
      | succ j =>
          rw [List.getElem?_cons_succ] at hget
          have hlevel0 : ∀ t ∈ level, outcome t = none :=
            hbefore 0 level (Nat.succ_pos j) (List.getElem?_cons_zero)
          have hemp : (deployServicesInLevel level outcome).isEmpty = true := by
            rw [List.isEmpty_iff, deployServicesInLevel_eq_nil]
            exact hlevel0
          have hbefore2 : ∀ k lvlk, k < j → rest[k]? = some lvlk →
              ∀ t ∈ lvlk, outcome t = none := by
            intro k lvlk hk hgk
            exact hbefore (k + 1) lvlk (by omega) (by rw [List.getElem?_cons_succ]; exact hgk)
          have hrec := ih j lvl (idx + 1) hget hbefore2 hfail
          have hidx : idx + 1 + j = idx + (j + 1) := by omega
          simp only [deployLevels, hemp, if_true, hrec, hidx]
          rw [List.take_succ_cons]
          simp

/-- **C5.** When level `i` of the deploy plan is reached (all earlier
levels succeeded) and at least one of its services fails: every service
of that level is still attempted (the attempt trace is exactly the
flattening of levels `0..i`, so sibling attempts complete), no later
level is started (no later level's service is in the trace), and the
returned error carries exactly the `(service, error)` pairs of that
level's failing services. -/
theorem claim_c5_level_failure_aborts :
    ∀ (rt : RuntimeConfig) (outcome : String → Option String)
      (levels : List (List String)) (i : Nat) (lvl : List String),
      groupServicesByDependencyLevel rt = Except.ok levels →
      levels[i]? = some lvl →
      (∀ j lvlj, j < i → levels[j]? = some lvlj → ∀ t ∈ lvlj, outcome t = none) →
      (∃ s ∈ lvl, outcome s ≠ none) →
      DeployServices rt outcome =
        (Except.error
          (DeployError.levelFailure i (deployServicesInLevel lvl outcome)),
          (levels.take (i + 1)).flatten) ∧
      (∀ t e, (t, e) ∈ deployServicesInLevel lvl outcome ↔
        t ∈ lvl ∧ outcome t = some e) ∧
      (∀ t ∈ lvl, t ∈ (levels.take (i + 1)).flatten) := by
  intro rt outcome levels i lvl hgroup hget hbefore hfail
  refine ⟨?_, fun t e => mem_deployServicesInLevel lvl outcome t e, ?_⟩
  · unfold DeployServices
    rw [hgroup]
    have h := deployLevels_failure outcome levels i lvl 0 hget hbefore hfail
    simpa using h
  · intro t ht
    have h1 : (levels.take (i + 1))[i]? = some lvl := by
      rw [List.getElem?_take]
      rw [if_pos (Nat.lt_succ_self i)]
      exact hget
    exact List.mem_flatten.mpr ⟨lvl, List.getElem?_mem h1, ht⟩

/-- A two-service environment `{a: [], b: [a]}`; the code levels it as
`[[b],[a]]`. -/
def rtTwo : RuntimeConfig :=
  { base := { name := "two", defaults := defaultsExample }
    mode := ExecutionMode.artifact
    resolvedServices := [("a", mkService "a" []), ("b", mkService "b" ["a"])] }

/-- The deployment outcome in which only service `b` fails. -/
def outcomeBFails : String → Option String :=
  fun name => if name = "b" then some "boom" else none

/-- Witness for C5: the theorem applied to a concrete two-level plan whose
first level fails, hypotheses discharged by evaluation. -/
theorem claim_c5_witness :
    DeployServices rtTwo outcomeBFails =
      (Except.error (DeployError.levelFailure 0 [("b", "boom")]), ["b"]) := by
  have h := (claim_c5_level_failure_aborts rtTwo outcomeBFails [["b"], ["a"]] 0 ["b"]
    (by rfl) (by rfl)
    (fun j lvlj hj _ => absurd hj (Nat.not_lt_zero j))
    ⟨"b", by simp, by simp [outcomeBFails]⟩).1
  rw [show deployServicesInLevel ["b"] outcomeBFails = [("b", "boom")] from rfl] at h
  rw [show (([["b"], ["a"]] : List (List String)).take 1).flatten = ["b"] from rfl] at h
  exact h

/-! ## Undeploy (`UndeployServices` / `undeployServicesInLevel` /
`filterPlatReleases`, `pkg/orchestrator/services.go`)

As with deploy, the level fan-out is concurrent in Go; which uninstall
calls are issued does not depend on scheduling, only on the filtered
release list, so the embedding records them in level order.
`uninstallOutcome releaseName = some e` models a failing
`UninstallChart` call (undeploy failures are collected, logged and never
abort the operation). -/

/-- `getReleaseName` from `pkg/orchestrator/services.go`: the release name
is the service name unchanged. -/
def getReleaseName (serviceName : String) (_ : RuntimeConfig) : String :=
  serviceName

/-- The expected-service-name set built by `filterPlatReleases`: every
service name plus its derived release name. -/
def expectedServiceNames (rt : RuntimeConfig) : List String :=
  rt.resolvedServices.foldr
    (fun p acc => p.1 :: getReleaseName p.1 rt :: acc) []

/-- `filterPlatReleases` from `pkg/orchestrator/services.go`: keep only
the releases whose name is in the expected-service-name set. -/
def filterPlatReleases (releases : List ReleaseInfo) (rt : RuntimeConfig) :
    List ReleaseInfo :=
  releases.filter (fun release => decide (release.name ∈ expectedServiceNames rt))

/-- The release names `undeployServicesInLevel` uninstalls: a service of
the level is skipped unless some filtered release matches its name or its
derived release name; otherwise `UninstallChart` is called on the derived
release name. -/
def undeployLevelCalls (serviceNames : List String)
    (platReleases : List ReleaseInfo) (rt : RuntimeConfig) : List String :=
  (serviceNames.filter (fun name =>
      platReleases.any (fun release =>
        release.name == name || release.name == getReleaseName name rt))).map
    (fun name => getReleaseName name rt)

/-- `undeployServicesInLevel` from `pkg/orchestrator/services.go`.  First
component: the level's best-effort error result; second: the uninstall
calls issued. -/
def undeployServicesInLevel (serviceNames : List String)
    (platReleases : List ReleaseInfo) (rt : RuntimeConfig)
    (uninstallOutcome : String → Option String) :
    Except String Unit × List String :=
  let called := undeployLevelCalls serviceNames platReleases rt
  let errors := called.filterMap uninstallOutcome
  (if errors.isEmpty then Except.ok ()
   else Except.error ("some services failed to undeploy: " ++ toString errors.length ++ " errors"),
   called)

/-- `UndeployServices` from `pkg/orchestrator/services.go`: list the
namespace's releases, filter to plat-managed ones, compute the levels and
undeploy in reverse level order; per-level errors are printed and never
abort, so once listing and leveling succeed the function returns `nil`.
Second component: the release names passed to `UninstallChart`, in call
order. -/
def UndeployServices (rt : RuntimeConfig)
    (releasesResult : Except String (List ReleaseInfo))
    (uninstallOutcome : String → Option String) :
    Except String Unit × List String :=
  match releasesResult with
  | Except.error e => (Except.error ("failed to list helm releases: " ++ e), [])
  | Except.ok releases =>
      let platReleases := filterPlatReleases releases rt
      match groupServicesByDependencyLevel rt with
      | Except.error e =>
          (Except.error ("failed to resolve service dependencies: " ++ e), [])
      | Except.ok serviceLevels =>
          (Except.ok (),
            (serviceLevels.reverse.map
              (fun level =>
                (undeployServicesInLevel level platReleases rt uninstallOutcome).2)).flatten)

theorem undeployLevelCalls_expected (serviceNames : List String)
    (releases : List ReleaseInfo) (rt : RuntimeConfig) :
    ∀ n ∈ undeployLevelCalls serviceNames (filterPlatReleases releases rt) rt,
      n ∈ expectedServiceNames rt := by
  intro n hn
  unfold undeployLevelCalls at hn
  rw [List.mem_map] at hn
  obtain ⟨name, hname, hrel⟩ := hn
  rw [List.mem_filter] at hname
  have hany := hname.2
  rw [List.any_eq_true] at hany
  obtain ⟨release, hrelmem, hmatch⟩ := hany
  unfold filterPlatReleases at hrelmem
  rw [List.mem_filter] at hrelmem
  have hexp : release.name ∈ expectedServiceNames rt := by
    have := hrelmem.2
    simpa using this
  have hname_eq : release.name = name := by
    rcases Bool.or_eq_true_iff.mp hmatch with h | h
    · exact beq_iff_eq.mp h
    · exact beq_iff_eq.mp h
  rw [← hrel]
  show getReleaseName name rt ∈ expectedServiceNames rt
  rw [show getReleaseName name rt = name from rfl, ← hname_eq]
  exact hexp

/-- **C6.** Every `UninstallChart` call issued by `UndeployServices` is
for a release name in the expected-name set derived from the environment
(the service names and their derived release names); a release in the
namespace whose name is outside that set is never uninstalled. -/
theorem claim_c6_undeploy_only_expected :
    ∀ (rt : RuntimeConfig) (releases : List ReleaseInfo)
      (uninstallOutcome : String → Option String),
      (∀ n ∈ (UndeployServices rt (Except.ok releases) uninstallOutcome).2,
        n ∈ expectedServiceNames rt) ∧
      (∀ release ∈ releases, release.name ∉ expectedServiceNames rt →
        release.name ∉ (UndeployServices rt (Except.ok releases) uninstallOutcome).2) := by
  intro rt releases uninstallOutcome
  have hmain : ∀ n ∈ (UndeployServices rt (Except.ok releases) uninstallOutcome).2,
      n ∈ expectedServiceNames rt := by
    intro n hn
    unfold UndeployServices at hn
    cases hlv : groupServicesByDependencyLevel rt with
    | error e =>
        rw [hlv] at hn
        simp at hn
    | ok serviceLevels =>
        rw [hlv] at hn
        simp only [List.mem_flatten, List.mem_map] at hn
        obtain ⟨calls, ⟨level, _, hc⟩, hmem⟩ := hn
        subst hc
        exact undeployLevelCalls_expected level releases rt n hmem
  exact ⟨hmain, fun release _ hout hmem => hout (hmain release.name hmem)⟩

/-- An unrelated release sitting in the shared namespace. -/
def foreignRelease : ReleaseInfo :=
  { name := "other", namespaceName := "default", status := "deployed", chart := "x" }

/-- The release of service `a` of `rtTwo`. -/
def releaseA : ReleaseInfo :=
  { name := "a", namespaceName := "default", status := "deployed", chart := "microservice" }

/-- Witness for C6: on a namespace containing the unrelated release
`other`, undeploying `rtTwo` never uninstalls it. -/
theorem claim_c6_witness :
    "other" ∉
      (UndeployServices rtTwo (Except.ok [releaseA, foreignRelease]) (fun _ => none)).2 := by
  have h := (claim_c6_undeploy_only_expected rtTwo [releaseA, foreignRelease]
    (fun _ => none)).2 foreignRelease (by simp) (by decide)
  simpa [foreignRelease] using h

/-! ## `GetServiceStatuses` (`pkg/orchestrator/services.go`)

`getStatus releaseName namespace` is the provider's
`GetReleaseStatus` response (`Except.error` models any failed query:
a not-found report, a tool failure, a parse failure — the Go code does
not distinguish them). -/

/-- Generic association-list lookup (Go map read). -/
def lookupA {α : Type} : List (String × α) → String → Option α
  | [], _ => none
  | (k, v) :: rest, key => if k = key then some v else lookupA rest key

/-- The placeholder status `GetServiceStatuses` substitutes when a
release-status query fails ("Service not deployed - create a placeholder
status"; the remaining fields keep their Go zero value). -/
def notDeployedStatus (releaseName namespaceName : String) : ReleaseStatus :=
  { name := releaseName, namespaceName := namespaceName
    status := "not-deployed", chart := "", version := "", updated := "" }

/-- The loop body of `GetServiceStatuses`: one entry per service,
substituting the placeholder whenever the provider query errors. -/
def serviceStatusEntries (rt : RuntimeConfig)
    (getStatus : String → String → Except String ReleaseStatus) :
    List (String × ReleaseStatus) :=
  rt.resolvedServices.map (fun p =>
    (p.1,
      match getStatus (getReleaseName p.1 rt) rt.base.defaults.namespaceName with
      | Except.ok status => status
      | Except.error _ =>
          notDeployedStatus (getReleaseName p.1 rt) rt.base.defaults.namespaceName))

/-- `GetServiceStatuses` from `pkg/orchestrator/services.go` (its only
return statement is `return statuses, nil`). -/
def GetServiceStatuses (rt : RuntimeConfig)
    (getStatus : String → String → Except String ReleaseStatus) :
    Except String (List (String × ReleaseStatus)) :=
  Except.ok (serviceStatusEntries rt getStatus)

theorem lookupA_map_key {α β : Type} (F : String → β) (l : List (String × α))
    (s : String) (hs : s ∈ l.map Prod.fst) :
    lookupA (l.map (fun p => (p.1, F p.1))) s = some (F s) := by
  induction l with
  | nil => simp at hs
  | cons hd rest ih =>
      obtain ⟨k, a⟩ := hd
      by_cases hk : k = s
      · subst hk
        simp [lookupA]
      · simp only [List.map_cons, List.mem_cons] at hs
        have hstep : lookupA (List.map (fun p => (p.1, F p.1)) ((k, a) :: rest)) s
            = lookupA (List.map (fun p => (p.1, F p.1)) rest) s := by
          simp [lookupA, hk]
        rcases hs with heq | hmem
        · exact absurd heq.symm hk
        · rw [hstep]
          exact ih hmem

theorem lookupA_serviceStatusEntries (rt : RuntimeConfig)
    (getStatus : String → String → Except String ReleaseStatus)
    (s : String) (hs : s ∈ serviceKeys rt) :
    lookupA (serviceStatusEntries rt getStatus) s =
      some (match getStatus (getReleaseName s rt) rt.base.defaults.namespaceName with
            | Except.ok status => status
            | Except.error _ =>
                notDeployedStatus (getReleaseName s rt) rt.base.defaults.namespaceName) := by
  unfold serviceStatusEntries
  exact lookupA_map_key
    (fun name =>
      match getStatus (getReleaseName name rt) rt.base.defaults.namespaceName with
      | Except.ok status => status
      | Except.error _ =>
          notDeployedStatus (getReleaseName name rt) rt.base.defaults.namespaceName)
    rt.resolvedServices s hs

/-- **C9.** `GetServiceStatuses` returns one status entry per service and
never fails because a service has no existing release: whenever the
provider reports an error for a service's release (in particular a
not-found report), the result instead contains the synthetic
`not-deployed` entry for that service. -/
theorem claim_c9_not_deployed_placeholder :
    ∀ (rt : RuntimeConfig)
      (getStatus : String → String → Except String ReleaseStatus),
      (∃ m, GetServiceStatuses rt getStatus = Except.ok m ∧
        m.map Prod.fst = serviceKeys rt) ∧
      (∀ s ∈ serviceKeys rt, ∀ e,
        getStatus (getReleaseName s rt) rt.base.defaults.namespaceName =
          Except.error e →
        lookupA (serviceStatusEntries rt getStatus) s =
          some (notDeployedStatus (getReleaseName s rt)
            rt.base.defaults.namespaceName)) := by
  intro rt getStatus
  constructor
  · refine ⟨serviceStatusEntries rt getStatus, rfl, ?_⟩
    unfold serviceStatusEntries serviceKeys
    rw [List.map_map]
    rfl
  · intro s hs e he
    rw [lookupA_serviceStatusEntries rt getStatus s hs, he]

/-- A provider that fails every status query. -/
def failingGetStatus (msg : String) :
    String → String → Except String ReleaseStatus :=
  fun _ _ => Except.error msg

/-- Witness for C9: at the concrete environment `rtTwo` with a provider
reporting `release: not found`, service `a` gets the synthetic
`not-deployed` entry. -/
theorem claim_c9_witness :
    lookupA (serviceStatusEntries rtTwo (failingGetStatus "release: not found")) "a" =
      some (notDeployedStatus "a" "default") := by
  have h := (claim_c9_not_deployed_placeholder rtTwo
    (failingGetStatus "release: not found")).2 "a" (by decide) "release: not found" rfl
  simpa using h

/-- **C10.** `GetServiceStatuses` is total over provider behaviour: it
always returns successfully, and *any* provider error — not only a
not-found report — is replaced by the same synthetic `not-deployed`
status, so two providers that fail a service's query for different
reasons (or a provider that fails it and one whose release was simply
never deployed) produce identical entries for that service. -/
theorem claim_c10_any_error_indistinguishable :
    (∀ (rt : RuntimeConfig)
      (getStatus : String → String → Except String ReleaseStatus),
      ∃ m, GetServiceStatuses rt getStatus = Except.ok m) ∧
    (∀ (rt : RuntimeConfig)
      (gs1 gs2 : String → String → Except String ReleaseStatus)
      (s : String), s ∈ serviceKeys rt → ∀ e1 e2,
      gs1 (getReleaseName s rt) rt.base.defaults.namespaceName = Except.error e1 →
      gs2 (getReleaseName s rt) rt.base.defaults.namespaceName = Except.error e2 →
      lookupA (serviceStatusEntries rt gs1) s =
        lookupA (serviceStatusEntries rt gs2) s ∧
      lookupA (serviceStatusEntries rt gs1) s =
        some (notDeployedStatus (getReleaseName s rt)
          rt.base.defaults.namespaceName)) := by
  constructor
  · intro rt getStatus
    exact ⟨serviceStatusEntries rt getStatus, rfl⟩
  · intro rt gs1 gs2 s hs e1 e2 he1 he2
    rw [lookupA_serviceStatusEntries rt gs1 s hs,
      lookupA_serviceStatusEntries rt gs2 s hs, he1, he2]
    exact ⟨rfl, rfl⟩

/-- Witness for C10: a tool failure and a parse failure yield the same
`not-deployed` entry at the concrete environment `rtTwo`. -/
theorem claim_c10_witness :
    lookupA (serviceStatusEntries rtTwo (failingGetStatus "helm: exec format error")) "b" =
      lookupA (serviceStatusEntries rtTwo (failingGetStatus "parse error")) "b" := by
  exact (claim_c10_any_error_indistinguishable.2 rtTwo
    (failingGetStatus "helm: exec format error") (failingGetStatus "parse error")
    "b" (by decide) "helm: exec format error" "parse error" rfl rfl).1

/-! ## Cluster manager (`pkg/orchestrator/cluster.go`) and the
orchestrator facade (`pkg/orchestrator/orchestrator.go`)

The k3d provider is a record of responses: `statusAt k name` is the
result of the `k`-th `GetClusterStatus` call the operation performs (the
cluster state can change between polls), `createResult` answers
`CreateCluster` and `deleteResult` answers `DeleteCluster`.  `EnsureCluster`
additionally returns the trace of provider calls it issues.
`waitForClusterReady` polls every 2s against a 60s deadline, i.e. at
most 30 polls. -/

/-- A call the cluster manager issues on its provider. -/
inductive ClusterCall where
  | getStatus (name : String)
  | create (cfg : ClusterConfig)
  | deleteCall (name : String)
deriving Repr, DecidableEq

/-- The k3d provider's responses. -/
structure ClusterProviderModel where
  statusAt : Nat → String → Except String ClusterStatus
  createResult : ClusterConfig → Except String Unit
  deleteResult : String → Except String Unit

/-- `getClusterName`: the fixed `plat-` prefix plus the environment
name. -/
def getClusterName (rt : RuntimeConfig) : String :=
  "plat-" ++ rt.base.name

/-- First-encounter-order deduplication (the Go code collects ports into
a `map[int]bool` and iterates it in unspecified order; only the set
matters to any caller). -/
def dedupIntsAux (seen : List Int) : List Int → List Int
  | [] => []
  | p :: rest =>
      if p ∈ seen then dedupIntsAux seen rest
      else p :: dedupIntsAux (p :: seen) rest

/-- `collectServicePorts` from `pkg/orchestrator/cluster.go`: the distinct
ports of all services other than 80/443 and nonpositive values. -/
def collectServicePorts (rt : RuntimeConfig) : List Int :=
  dedupIntsAux []
    ((rt.resolvedServices.map (fun p => p.2.ports)).flatten.filter
      (fun port => decide (port > 0) && decide (port ≠ 80) && decide (port ≠ 443)))

/-- `buildClusterConfig` from `pkg/orchestrator/cluster.go`. -/
def buildClusterConfig (rt : RuntimeConfig) : ClusterConfig :=
  { name := getClusterName rt
    image := ""
    servers := 1
    agents := 0
    ports := ["80:80@loadbalancer", "443:443@loadbalancer"] ++
      (collectServicePorts rt).map (fun port => s!"{port}:{port}@loadbalancer")
    volumes := []
    options := ["--k3s-arg=--disable=traefik@server:0"]
    labels := [("plat.env", rt.base.name),
               ("plat.domain", rt.base.defaults.domain),
               ("plat.namespace", rt.base.defaults.namespaceName)] }

/-- `waitForClusterReady`: poll (up to `polls` times, `k` indexing the
response sequence) until the status query succeeds with state `running`;
polling past the deadline yields the timeout error. -/
def waitForClusterReady (p : ClusterProviderModel) (clusterName : String) :
    Nat → Nat → Except String Unit × List ClusterCall
  | 0, _ => (Except.error ("timeout waiting for cluster " ++ clusterName ++ " to be ready"), [])
  | polls + 1, k =>
      match p.statusAt k clusterName with
      | Except.error _ =>
          let next := waitForClusterReady p clusterName polls (k + 1)
          (next.1, ClusterCall.getStatus clusterName :: next.2)
      | Except.ok status =>
          if status.status = "running" then
            (Except.ok (), [ClusterCall.getStatus clusterName])
          else
            let next := waitForClusterReady p clusterName polls (k + 1)
            (next.1, ClusterCall.getStatus clusterName :: next.2)

/-- The create-and-wait path of `EnsureCluster` (taken when the initial
status query fails or reports a non-`running` state). -/
def ensureCreatePath (p : ClusterProviderModel) (rt : RuntimeConfig)
    (clusterName : String) : Except String Unit × List ClusterCall :=
  let cfg := buildClusterConfig rt
  match p.createResult cfg with
  | Except.error e =>
      (Except.error ("failed to create cluster: " ++ e),
        [ClusterCall.getStatus clusterName, ClusterCall.create cfg])
  | Except.ok _ =>
      let wait := waitForClusterReady p clusterName 30 1
      (match wait.1 with
       | Except.ok _ => Except.ok ()
       | Except.error e => Except.error ("cluster failed to become ready: " ++ e),
        ClusterCall.getStatus clusterName :: ClusterCall.create cfg :: wait.2)

/-- `EnsureCluster` from `pkg/orchestrator/cluster.go`, with the trace of
provider calls it issues. -/
def EnsureCluster (p : ClusterProviderModel) (rt : RuntimeConfig) :
    Except String Unit × List ClusterCall :=
  match p.statusAt 0 (getClusterName rt) with
  | Except.ok status =>
      if status.status = "running" then
        (Except.ok (), [ClusterCall.getStatus (getClusterName rt)])
      else ensureCreatePath p rt (getClusterName rt)
  | Except.error _ => ensureCreatePath p rt (getClusterName rt)

/-- **C4.** When the cluster status query reports state `running`,
`EnsureCluster` returns success immediately and issues no
`CreateCluster` call on the provider. -/
theorem claim_c4_ensure_cluster_idempotent :
    ∀ (p : ClusterProviderModel) (rt : RuntimeConfig) (status : ClusterStatus),
      p.statusAt 0 (getClusterName rt) = Except.ok status →
      status.status = "running" →
      (EnsureCluster p rt).1 = Except.ok () ∧
      ∀ cfg, ClusterCall.create cfg ∉ (EnsureCluster p rt).2 := by
  intro p rt status hst hrun
  unfold EnsureCluster
  rw [hst]
  constructor
  · simp [hrun]
  · intro cfg
    simp [hrun]

/-- A provider whose cluster is already running. -/
def runningProvider : ClusterProviderModel :=
  { statusAt := fun _ name =>
      Except.ok { name := name, status := "running", servers := 1, agents := 0, network := "" }
    createResult := fun _ => Except.ok ()
    deleteResult := fun _ => Except.ok () }

/-- Witness for C4: the theorem applied to a concrete running cluster. -/
theorem claim_c4_witness :
    (EnsureCluster runningProvider rtC1).1 = Except.ok () ∧
    ClusterCall.create (buildClusterConfig rtC1) ∉ (EnsureCluster runningProvider rtC1).2 := by
  have h := claim_c4_ensure_cluster_idempotent runningProvider rtC1
    { name := getClusterName rtC1, status := "running", servers := 1, agents := 0, network := "" }
    rfl rfl
  exact ⟨h.1, h.2 (buildClusterConfig rtC1)⟩

/-- `DeleteCluster` from `pkg/orchestrator/cluster.go`: invoke deletion
and return its (wrapped) result directly. -/
def DeleteCluster (p : ClusterProviderModel) (rt : RuntimeConfig) :
    Except String Unit × List ClusterCall :=
  match p.deleteResult (getClusterName rt) with
  | Except.error e =>
      (Except.error ("failed to delete cluster: " ++ e),
        [ClusterCall.deleteCall (getClusterName rt)])
  | Except.ok _ => (Except.ok (), [ClusterCall.deleteCall (getClusterName rt)])

/-- `Down` from `pkg/orchestrator/orchestrator.go`: undeploy services
(errors are printed as warnings and never abort), then — only when
`deleteCluster` is requested — delete the cluster, whose failure is
returned as an error. -/
def Down (p : ClusterProviderModel) (rt : RuntimeConfig)
    (releasesResult : Except String (List ReleaseInfo))
    (uninstallOutcome : String → Option String) (deleteCluster : Bool) :
    Except String Unit :=
  let _undeployResult := UndeployServices rt releasesResult uninstallOutcome
  if deleteCluster then
    match (DeleteCluster p rt).1 with
    | Except.error e => Except.error ("cluster deletion failed: " ++ e)
    | Except.ok _ => Except.ok ()
  else Except.ok ()

/-- A provider whose cluster deletion fails. -/
def failingDeleteProvider : ClusterProviderModel :=
  { statusAt := fun _ name =>
      Except.ok { name := name, status := "running", servers := 1, agents := 0, network := "" }
    createResult := fun _ => Except.ok ()
    deleteResult := fun _ => Except.error "k3d cluster delete failed" }

/-- **C7 counterexample.** With cluster deletion requested and the
deletion failing, `Down` returns an error — it does not log the failure
as a warning and return success as claimed. -/
theorem claim_c7_counterexample :
    Down failingDeleteProvider rtC1 (Except.ok []) (fun _ => none) true =
      Except.error
        "cluster deletion failed: failed to delete cluster: k3d cluster delete failed" := by
  rfl

/-- **C7 (amended).** Undeployment errors are warnings and never make
`Down` fail: for every undeploy behaviour, `Down` succeeds whenever
cluster deletion is not requested, and succeeds when requested deletion
succeeds; but when deletion is requested and the provider's deletion
fails, `Down` returns the wrapped deletion error (fatal). -/
theorem claim_c7_down_deletion_fatal :
    ∀ (p : ClusterProviderModel) (rt : RuntimeConfig)
      (releasesResult : Except String (List ReleaseInfo))
      (uninstallOutcome : String → Option String),
      (Down p rt releasesResult uninstallOutcome false = Except.ok ()) ∧
      (p.deleteResult (getClusterName rt) = Except.ok () →
        Down p rt releasesResult uninstallOutcome true = Except.ok ()) ∧
      (∀ e, p.deleteResult (getClusterName rt) = Except.error e →
        Down p rt releasesResult uninstallOutcome true =
          Except.error ("cluster deletion failed: failed to delete cluster: " ++ e)) := by
  intro p rt releasesResult uninstallOutcome
  refine ⟨rfl, ?_, ?_⟩
  · intro hdel
    unfold Down DeleteCluster
    rw [hdel]
    rfl
  · intro e hdel
    unfold Down DeleteCluster
    rw [hdel]
    rfl

/-- Witness for C7 (amended): at a concrete failing-deletion provider the
three branches evaluate as stated. -/
theorem claim_c7_witness :
    Down failingDeleteProvider rtC1 (Except.ok []) (fun _ => none) false = Except.ok () ∧
    Down failingDeleteProvider rtC1 (Except.ok []) (fun _ => none) true =
      Except.error
        "cluster deletion failed: failed to delete cluster: k3d cluster delete failed" := by
  have h := claim_c7_down_deletion_fatal failingDeleteProvider rtC1
    (Except.ok []) (fun _ => none)
  exact ⟨h.1, h.2.2 "k3d cluster delete failed" rfl⟩

end Plat
